import Mathlib

/-!
Shallow embedding of `duplipy/replication.py` (text/image augmentation helpers).

Python's global random generator is modelled as an explicit stream state
(`RNG`): `random.random()` reads successive rationals from `uniforms`,
while the integer draws behind `random.choice`/`random.randint` read
successive naturals from `ints`; every call advances the shared position,
mirroring the single global generator.  `time.time()` is likewise a stream
(`Clock`).  Console prints become an explicit `OutputEvent` list.  External
collaborators (WordNet, the NLTK tokenizer and tagger, the file system) are
function parameters.
-/

/-- State of Python's global `random` module: a stream of `random.random()`
outputs, a stream of raw integer draws, and the current position shared by
both (each call to the generator advances it). -/
structure RNG where
  uniforms : ℕ → ℚ
  ints : ℕ → ℕ
  pos : ℕ

/-- One call of `random.random()`: the next uniform draw. -/
def RNG.random (g : RNG) : ℚ × RNG :=
  (g.uniforms g.pos, ⟨g.uniforms, g.ints, g.pos + 1⟩)

/-- `random.choice(l)` for a list of strings: an integer draw reduced
modulo the length indexes the list (on the empty list Python would raise;
the code only calls this on non-empty lists). -/
def RNG.choice (g : RNG) (l : List String) : String × RNG :=
  (l.getD (g.ints g.pos % l.length) "", ⟨g.uniforms, g.ints, g.pos + 1⟩)

/-- `random.randint(a, b)`: a uniform integer in the inclusive range
`[a, b]`, modelled as `a` plus an integer draw modulo the range size. -/
def RNG.randint (g : RNG) (a b : ℕ) : ℕ × RNG :=
  (a + g.ints g.pos % (b - a + 1), ⟨g.uniforms, g.ints, g.pos + 1⟩)

/-- State of the ambient wall clock: `time.time()` reads successive values
from a stream. -/
structure Clock where
  times : ℕ → ℚ
  pos : ℕ

/-- One call of `time.time()`. -/
def Clock.now (c : Clock) : ℚ × Clock :=
  (c.times c.pos, ⟨c.times, c.pos + 1⟩)

/-- One line printed to the console by `replication.py`. -/
inductive OutputEvent where
  | progressLine (processed numTokens : ℕ) (rate : ℚ)
  | clearLine
  | completeLine
  | errorLine (msg : String)
  deriving DecidableEq

/-- Accumulator pass behind `pySplitWs`: scan the characters, collecting
the current word in reverse and emitting it at each whitespace boundary. -/
def pySplitWsAux : List Char → List Char → List String
  | [], cur => if cur = [] then [] else [String.mk cur.reverse]
  | c :: cs, cur =>
    if c.isWhitespace then
      if cur = [] then pySplitWsAux cs []
      else String.mk cur.reverse :: pySplitWsAux cs []
    else pySplitWsAux cs (c :: cur)

/-- Python `text.split()` (no separator): split on whitespace runs,
discarding empty pieces. -/
def pySplitWs (text : String) : List String :=
  pySplitWsAux text.data []

/-- Does the second list start with the first?  (The test Python's
`str.replace` and `str.startswith` perform at a given position.) -/
def listStarts : List Char → List Char → Bool
  | [], _ => true
  | _ :: _, [] => false
  | d :: ds, c :: cs => d == c && listStarts ds cs

/-- Python `s.startswith(pre)`. -/
def pyStartsWith (s pre : String) : Bool :=
  listStarts pre.data s.data

/-- Python `s.replace(old, new)` on character lists: with an empty pattern,
`new` is inserted before every character and at the end; otherwise scan
left to right, replacing each non-overlapping leftmost occurrence of
`old` with `new`. -/
def pyReplaceL (old new : List Char) (s : List Char) : List Char :=
  if ho : old = [] then new ++ (s.map (fun c => c :: new)).flatten
  else
    match s with
    | [] => []
    | c :: rest =>
      if listStarts old (c :: rest) then
        new ++ pyReplaceL old new ((c :: rest).drop old.length)
      else c :: pyReplaceL old new rest
termination_by s.length
decreasing_by
  · have := List.length_pos.mpr ho
    simp only [List.length_drop, List.length_cons]
    omega
  · simp only [List.length_cons]
    omega

/-- Python `s.replace(old, new)` on strings. -/
def pyReplace (s old new : String) : String :=
  String.mk (pyReplaceL old.data new.data s.data)

/-- `replace_word_with_synonym(word)` (replication.py:34-60): collect the
lemma names of every synset of `word` (the collaborator `wn` returns, per
sense, the list of lemma names); if the collection is non-empty return a
random choice from it, otherwise return the word unchanged.  The
collaborator is total here, so the `except` branch (which also returns the
word) is unreachable. -/
def replace_word_with_synonym (wn : String → List (List String))
    (word : String) (g : RNG) : String × RNG :=
  let synonyms := (wn word).flatten
  if synonyms = [] then (word, g) else g.choice synonyms

/-- Running state of the augmentation loops of `augment_text_with_synonyms`:
the random generator, the clock, the `processed_tokens` counter, and the
lines printed so far. -/
structure LoopSt where
  g : RNG
  clk : Clock
  processed : ℕ
  events : List OutputEvent

/-- The progress print inside the token loop (replication.py:99-104):
when `progress` is set, read the clock, compute the elapsed time since
`startT` (substituting `1e-6` when it is zero) and emit one progress line
with the processing rate. -/
def progressEvents (progress : Bool) (processed numTokens : ℕ)
    (startT : ℚ) (clk : Clock) : List OutputEvent × Clock :=
  if progress then
    let nc := clk.now
    let elapsed := nc.1 - startT
    let e := if elapsed = 0 then (1 / 1000000 : ℚ) else elapsed
    ([OutputEvent.progressLine processed numTokens ((processed : ℚ) / e)], nc.2)
  else ([], clk)

/-- The inner `for token in tokens` loop (replication.py:89-104): draw a
uniform value per token, replace the token by a synonym when the draw is
below `p`, count it as processed, and possibly print progress. -/
def augTokens (wn : String → List (List String)) (p : ℚ) (progress : Bool)
    (numTokens : ℕ) (startT : ℚ) : List String → LoopSt → List String × LoopSt
  | [], st => ([], st)
  | t :: ts, st =>
    let rr := st.g.random
    let tg := if rr.1 < p then replace_word_with_synonym wn t rr.2 else (t, rr.2)
    let pe := progressEvents progress (st.processed + 1) numTokens startT st.clk
    let rest := augTokens wn p progress numTokens startT ts
      ⟨tg.2, pe.2, st.processed + 1, st.events ++ pe.1⟩
    (tg.1 :: rest.1, rest.2)

/-- The outer `for _ in range(augmentation_factor)` loop
(replication.py:86-106): run the token loop once per variant and append the
tokens rejoined with single spaces. -/
def augVariants (wn : String → List (List String)) (p : ℚ) (progress : Bool)
    (numTokens : ℕ) (startT : ℚ) (tokens : List String) :
    ℕ → LoopSt → List String × LoopSt
  | 0, st => ([], st)
  | n + 1, st =>
    let v := augTokens wn p progress numTokens startT tokens st
    let rest := augVariants wn p progress numTokens startT tokens n v.2
    (String.intercalate " " v.1 :: rest.1, rest.2)

/-- What `augment_text_with_synonyms` leaves behind: the returned list, the
console output, and the advanced generator and clock. -/
structure AugOut where
  result : List String
  output : List OutputEvent
  g : RNG
  clk : Clock

/-- The message printed by the `except` handler of
`augment_text_with_synonyms` when `probability` is `None`: the `ValueError`
raised at replication.py:78 is caught by the blanket `except` at line 113,
formatted, and the function returns `[]` normally. -/
def noneProbabilityMsg : String :=
  "An error occurred during text augmentation: Probability value cannot be of NoneType. Choose a float from 0 to 1"

/-- `augment_text_with_synonyms(text, augmentation_factor, probability,
progress)` (replication.py:62-117).  A `None` probability raises a
`ValueError` that the function's own `except Exception` clause catches: it
prints the error message and returns the empty list, so the caller sees a
normal return value.  Otherwise the text is split on whitespace,
`time.time()` is read once, and `augmentation_factor` variants are built by
the two loops, followed by the completion prints when `progress` is set. -/
def augment_text_with_synonyms (wn : String → List (List String))
    (text : String) (augmentation_factor : ℕ) (probability : Option ℚ)
    (progress : Bool) (g : RNG) (clk : Clock) : AugOut :=
  match probability with
  | none => ⟨[], [OutputEvent.errorLine noneProbabilityMsg], g, clk⟩
  | some p =>
    let tokens := pySplitWs text
    let st := clk.now
    let run := augVariants wn p progress tokens.length st.1 tokens
      augmentation_factor ⟨g, st.2, 0, []⟩
    let doneEvents :=
      if progress then [OutputEvent.clearLine, OutputEvent.completeLine] else []
    ⟨run.1, run.2.events ++ doneEvents, run.2.g, run.2.clk⟩

/-- `load_text_file(file_path)` (replication.py:119-135) with the file
system abstracted as a partial map from paths to contents: a missing or
unreadable file is caught by the `except` clause and degrades to the empty
string. -/
def load_text_file (fs : String → Option String) (file_path : String) : String :=
  match fs file_path with
  | some contents => contents
  | none => ""

/-- `augment_file_with_synonyms(file_path, ...)` (replication.py:137-156):
load the file (degrading to `""`) and augment the loaded text.  Its own
`except` clause is unreachable because both callees catch internally. -/
def augment_file_with_synonyms (fs : String → Option String)
    (wn : String → List (List String)) (file_path : String)
    (augmentation_factor : ℕ) (probability : Option ℚ) (progress : Bool)
    (g : RNG) (clk : Clock) : AugOut :=
  augment_text_with_synonyms wn (load_text_file fs file_path)
    augmentation_factor probability progress g clk

/-- `delete_random_word(text)` (replication.py:183-204) with the NLTK
tokenizer abstracted as `tk`: tokenize; when more than one token remains,
`pop` a uniformly random index; rejoin with single spaces (the join also
runs in the ≤ 1 token case). -/
def delete_random_word (tk : String → List String) (text : String)
    (g : RNG) : String × RNG :=
  let words := tk text
  if 1 < words.length then
    let ig := g.randint 0 (words.length - 1)
    (String.intercalate " " (words.eraseIdx ig.1), ig.2)
  else
    (String.intercalate " " words, g)

/-- `insert_synonym(text, word)` (replication.py:207-227): pick one synonym
for `word` via `replace_word_with_synonym`, then replace every literal
occurrence of `word` in `text` with it (Python `str.replace`, not
token-aware). -/
def insert_synonym (wn : String → List (List String)) (text word : String)
    (g : RNG) : String × RNG :=
  let sg := replace_word_with_synonym wn word g
  (pyReplace text word sg.1, sg.2)

/-- The tag test of `paraphrase` (replication.py:246):
`tag.startswith(("VB", "NN", "JJ"))`. -/
def tagMatches (tag : String) : Bool :=
  pyStartsWith tag "VB" || pyStartsWith tag "NN" || pyStartsWith tag "JJ"

/-- The list comprehension of `paraphrase` (replication.py:246): walk the
tagged tokens, replacing those whose tag matches the verb/noun/adjective
families and passing the rest through, threading the random state in
order. -/
def paraphraseTokens (wn : String → List (List String)) :
    List (String × String) → RNG → List String × RNG
  | [], g => ([], g)
  | (tok, tag) :: rest, g =>
    let tg := if tagMatches tag then replace_word_with_synonym wn tok g
      else (tok, g)
    let rg := paraphraseTokens wn rest tg.2
    (tg.1 :: rg.1, rg.2)

/-- `paraphrase(text)` (replication.py:230-251) with the NLTK tokenizer and
part-of-speech tagger abstracted as fallible collaborators: a failure in
either is caught by the `except` clause and returns the original text;
otherwise matching tokens are replaced and the result rejoined with single
spaces. -/
def paraphrase (wn : String → List (List String))
    (tokenizeE : String → Except String (List String))
    (posTagE : List String → Except String (List (String × String)))
    (text : String) (g : RNG) : String × RNG :=
  match tokenizeE text with
  | Except.error _ => (text, g)
  | Except.ok tokens =>
    match posTagE tokens with
    | Except.error _ => (text, g)
    | Except.ok tagged =>
      let pg := paraphraseTokens wn tagged g
      (String.intercalate " " pg.1, pg.2)

/-- A PIL image: a size plus a pixel function (only the geometry matters to
the claims; pixels are carried so that crops are real sub-images). -/
structure PImage where
  width : ℕ
  height : ℕ
  pix : ℕ → ℕ → ℕ

/-- `crop(image, box)` (replication.py:318-329), delegating to
`PIL.Image.crop`: the result has size `(right - left, lower - upper)` and
reads the source pixels offset by the top-left corner. -/
def crop (image : PImage) (box : ℕ × ℕ × ℕ × ℕ) : PImage :=
  match box with
  | (left, upper, right, lower) =>
    ⟨right - left, lower - upper, fun x y => image.pix (left + x) (upper + y)⟩

/-- `random_crop(image, size)` (replication.py:331-347): draw the top-left
corner uniformly from `[0, width - size_w] × [0, height - size_h]` and crop
the corresponding box. -/
def random_crop (image : PImage) (size : ℕ × ℕ) (g : RNG) : PImage × RNG :=
  let lg := g.randint 0 (image.width - size.1)
  let ug := lg.2.randint 0 (image.height - size.2)
  (crop image (lg.1, ug.1, lg.1 + size.1, ug.1 + size.2), ug.2)

/-- Calling the object bound by `import tqdm` (replication.py:28) as a
function, as `shuffle_words` does with `tqdm(total=..., desc=...)`
(replication.py:366): the name refers to the `tqdm` module itself, not the
`tqdm.tqdm` class, and calling a module object raises a `TypeError` in
Python. -/
def tqdmModuleCall (total : ℕ) (desc : String) : Except String Unit :=
  Except.error "TypeError: module object is not callable"

/-- Python `random.sample(l, k)`: `k` selections without replacement,
each drawing a random index into the remaining elements. -/
def pySample (l : List String) : ℕ → RNG → List String × RNG
  | 0, g => ([], g)
  | k + 1, g =>
    let i := g.ints g.pos % l.length
    let g' : RNG := ⟨g.uniforms, g.ints, g.pos + 1⟩
    let rest := pySample (l.eraseIdx i) k g'
    (l.getD i "" :: rest.1, rest.2)

/-- The loop body of `shuffle_words` (replication.py:367-372): split each
sentence on whitespace, shuffle its words with `random.sample`, rejoin. -/
def shuffleSentences : List String → RNG → List String × RNG
  | [], g => ([], g)
  | s :: rest, g =>
    let words := pySplitWs s
    let sg := pySample words words.length g
    let rg := shuffleSentences rest sg.2
    (String.intercalate " " sg.1 :: rg.1, rg.2)

/-- `shuffle_words(text)` (replication.py:351-373): the function first
evaluates `tqdm(total=len(text), desc="Shuffling Words")`, which raises a
`TypeError` (the module object is called, see `tqdmModuleCall`); there is
no exception handler, so the error propagates and the shuffling loop is
never reached. -/
def shuffle_words (text : List String) (g : RNG) :
    Except String (List String × RNG) :=
  match tqdmModuleCall text.length "Shuffling Words" with
  | Except.error e => Except.error e
  | Except.ok _ => Except.ok (shuffleSentences text g)

/-- Collaborator used by the concrete witnesses: "cat" has one sense with
two lemma names, every other word has none. -/
def wnCat : String → List (List String) :=
  fun w => if w = "cat" then [["feline", "cat"]] else []

/-- A concrete random state: all draws are zero. -/
def rng0 : RNG := ⟨fun _ => 0, fun _ => 0, 0⟩

/-- A concrete clock: time is frozen at zero. -/
def clk0 : Clock := ⟨fun _ => 0, 0⟩

/-- File system used by the C10 witness: no path exists. -/
def fsEmpty : String → Option String := fun _ => none

/-- Tokenizer collaborator that always fails, used by the C6 witness. -/
def tokenizeFail : String → Except String (List String) :=
  fun _ => Except.error "tokenizer failure"

/-- Part-of-speech tagger collaborator that tags everything as a noun,
used by the C6 witness. -/
def posTagAllNN : List String → Except String (List (String × String)) :=
  fun ts => Except.ok (ts.map (fun t => (t, "NN")))

/-- A concrete 10 × 8 all-black image, used by the C7 witness. -/
def img0 : PImage := ⟨10, 8, fun _ _ => 0⟩

/- ======================  theorems  ====================== -/

theorem RNG.choice_mem (g : RNG) (l : List String) (h : l ≠ []) :
    (g.choice l).1 ∈ l := by
  have hlen : 0 < l.length := List.length_pos.mpr h
  have hlt : g.ints g.pos % l.length < l.length := Nat.mod_lt _ hlen
  simp only [RNG.choice]
  rw [List.getD_eq_getElem l "" hlt]
  exact List.getElem_mem hlt

theorem replace_word_with_synonym_mem (wn : String → List (List String))
    (word : String) (g : RNG) (h : (wn word).flatten ≠ []) :
    (replace_word_with_synonym wn word g).1 ∈ (wn word).flatten := by
  simp only [replace_word_with_synonym, if_neg h]
  exact RNG.choice_mem g _ h

theorem replace_word_with_synonym_of_empty (wn : String → List (List String))
    (word : String) (g : RNG) (h : (wn word).flatten = []) :
    (replace_word_with_synonym wn word g).1 = word := by
  simp only [replace_word_with_synonym, if_pos h]

/-- C2: with a non-empty lemma-name collection the result is a member of
that collection; with an empty collection the word is returned unchanged. -/
theorem replace_word_with_synonym_spec (wn : String → List (List String))
    (word : String) (g : RNG) :
    ((wn word).flatten ≠ [] →
      (replace_word_with_synonym wn word g).1 ∈ (wn word).flatten) ∧
    ((wn word).flatten = [] →
      (replace_word_with_synonym wn word g).1 = word) :=
  ⟨replace_word_with_synonym_mem wn word g,
    replace_word_with_synonym_of_empty wn word g⟩

/-- C2 witness: at the concrete collaborator `wnCat`, the word "cat" has a
non-empty lemma collection and the replacement lies in it. -/
theorem replace_word_with_synonym_spec_witness :
    (wnCat "cat").flatten ≠ [] ∧
      (replace_word_with_synonym wnCat "cat" rng0).1 ∈ (wnCat "cat").flatten :=
  ⟨by decide, (replace_word_with_synonym_spec wnCat "cat" rng0).1 (by decide)⟩

/-- C1 (evaluation): with `probability=None` the pipeline returns the empty
list as a normal value, together with the printed handler message — the
`ValueError` raised at replication.py:78 is caught by the function's own
`except` clause at line 113 and never reaches the caller. -/
theorem augment_none_probability_returns_normally
    (wn : String → List (List String)) (text : String) (n : ℕ)
    (progress : Bool) (g : RNG) (clk : Clock) :
    augment_text_with_synonyms wn text n none progress g clk =
      ⟨[], [OutputEvent.errorLine noneProbabilityMsg], g, clk⟩ := rfl

theorem augTokens_zero_prob (wn : String → List (List String))
    (progress : Bool) (numTokens : ℕ) (startT : ℚ) (ts : List String) :
    ∀ st : LoopSt, (∀ i, 0 ≤ st.g.uniforms i) →
      (augTokens wn 0 progress numTokens startT ts st).1 = ts ∧
      (augTokens wn 0 progress numTokens startT ts st).2.g.uniforms =
        st.g.uniforms := by
  induction ts with
  | nil => intro st _; exact ⟨rfl, rfl⟩
  | cons t ts ih =>
    intro st h
    have hr : ¬ (st.g.random.1 < (0 : ℚ)) := not_lt.mpr (h st.g.pos)
    simp only [augTokens, if_neg hr]
    have ih' := ih ⟨st.g.random.2,
      (progressEvents progress (st.processed + 1) numTokens startT st.clk).2,
      st.processed + 1,
      st.events ++
        (progressEvents progress (st.processed + 1) numTokens startT st.clk).1⟩ h
    exact ⟨by rw [ih'.1], ih'.2⟩

theorem augVariants_zero_prob (wn : String → List (List String))
    (progress : Bool) (numTokens : ℕ) (startT : ℚ) (tokens : List String)
    (n : ℕ) : ∀ st : LoopSt, (∀ i, 0 ≤ st.g.uniforms i) →
      (augVariants wn 0 progress numTokens startT tokens n st).1 =
        List.replicate n (String.intercalate " " tokens) := by
  induction n with
  | zero => intro st _; rfl
  | succ n ih =>
    intro st h
    have ht := augTokens_zero_prob wn progress numTokens startT tokens st h
    simp only [augVariants, ht.1, List.replicate_succ]
    have hnext : ∀ i, 0 ≤
        (augTokens wn 0 progress numTokens startT tokens st).2.g.uniforms i := by
      intro i; rw [ht.2]; exact h i
    rw [ih _ hnext]

/-- C3: with probability `0` every uniform draw (which is non-negative)
fails the `< 0` test, so no token is ever replaced and the pipeline returns
`augmentation_factor` copies of the whitespace-normalized input. -/
theorem augment_zero_probability (wn : String → List (List String))
    (text : String) (n : ℕ) (progress : Bool) (g : RNG) (clk : Clock)
    (h : ∀ i, 0 ≤ g.uniforms i) :
    (augment_text_with_synonyms wn text n (some 0) progress g clk).result =
      List.replicate n (String.intercalate " " (pySplitWs text)) := by
  simp only [augment_text_with_synonyms]
  exact augVariants_zero_prob wn progress (pySplitWs text).length
    (clk.now).1 (pySplitWs text) n ⟨g, (clk.now).2, 0, []⟩ h

/-- C3 witness: with the all-zero draw stream (whose values are
non-negative) and factor 2 on "the  cat", the result is two copies of the
normalized text. -/
theorem augment_zero_probability_witness :
    (∀ i, 0 ≤ rng0.uniforms i) ∧
      (augment_text_with_synonyms wnCat "the  cat" 2 (some 0) true rng0
        clk0).result = ["the cat", "the cat"] :=
  ⟨fun _ => le_refl 0, by
    rw [augment_zero_probability wnCat "the  cat" 2 true rng0 clk0
      (fun _ => le_refl 0)]
    decide⟩

theorem augTokens_progress_inv (wn : String → List (List String)) (p : ℚ)
    (numTokens : ℕ) (startT : ℚ) (ts : List String) :
    ∀ (st₁ st₂ : LoopSt) (pr₁ pr₂ : Bool), st₁.g = st₂.g →
      (augTokens wn p pr₁ numTokens startT ts st₁).1 =
        (augTokens wn p pr₂ numTokens startT ts st₂).1 ∧
      (augTokens wn p pr₁ numTokens startT ts st₁).2.g =
        (augTokens wn p pr₂ numTokens startT ts st₂).2.g := by
  induction ts with
  | nil => intro st₁ st₂ pr₁ pr₂ hg; exact ⟨rfl, hg⟩
  | cons t ts ih =>
    intro st₁ st₂ pr₁ pr₂ hg
    obtain ⟨g₁, c₁, n₁, e₁⟩ := st₁
    obtain ⟨g₂, c₂, n₂, e₂⟩ := st₂
    simp only at hg
    subst hg
    simp only [augTokens]
    have ih' := ih ⟨(if (g₁.random).1 < p then
        replace_word_with_synonym wn t (g₁.random).2 else (t, (g₁.random).2)).2,
      (progressEvents pr₁ (n₁ + 1) numTokens startT c₁).2, n₁ + 1,
      e₁ ++ (progressEvents pr₁ (n₁ + 1) numTokens startT c₁).1⟩
      ⟨(if (g₁.random).1 < p then
        replace_word_with_synonym wn t (g₁.random).2 else (t, (g₁.random).2)).2,
      (progressEvents pr₂ (n₂ + 1) numTokens startT c₂).2, n₂ + 1,
      e₂ ++ (progressEvents pr₂ (n₂ + 1) numTokens startT c₂).1⟩
      pr₁ pr₂ rfl
    exact ⟨by rw [ih'.1], ih'.2⟩

theorem augVariants_progress_inv (wn : String → List (List String)) (p : ℚ)
    (numTokens : ℕ) (startT : ℚ) (tokens : List String) (n : ℕ) :
    ∀ (st₁ st₂ : LoopSt) (pr₁ pr₂ : Bool), st₁.g = st₂.g →
      (augVariants wn p pr₁ numTokens startT tokens n st₁).1 =
        (augVariants wn p pr₂ numTokens startT tokens n st₂).1 ∧
      (augVariants wn p pr₁ numTokens startT tokens n st₁).2.g =
        (augVariants wn p pr₂ numTokens startT tokens n st₂).2.g := by
  induction n with
  | zero => intro st₁ st₂ pr₁ pr₂ hg; exact ⟨rfl, hg⟩
  | succ n ih =>
    intro st₁ st₂ pr₁ pr₂ hg
    have ht := augTokens_progress_inv wn p numTokens startT tokens st₁ st₂
      pr₁ pr₂ hg
    simp only [augVariants]
    have ih' := ih _ _ pr₁ pr₂ ht.2
    exact ⟨by rw [ht.1, ih'.1], ih'.2⟩

/-- C8: the `progress` flag only changes what is printed; two runs from the
same random state return the same result list and leave the generator in
the same state (they consume the same draws). -/
theorem augment_progress_invariant (wn : String → List (List String))
    (text : String) (n : ℕ) (p : Option ℚ) (g : RNG) (clk : Clock) :
    (augment_text_with_synonyms wn text n p true g clk).result =
      (augment_text_with_synonyms wn text n p false g clk).result ∧
    (augment_text_with_synonyms wn text n p true g clk).g =
      (augment_text_with_synonyms wn text n p false g clk).g := by
  cases p with
  | none => exact ⟨rfl, rfl⟩
  | some p =>
    simp only [augment_text_with_synonyms]
    exact augVariants_progress_inv wn p (pySplitWs text).length (clk.now).1
      (pySplitWs text) n ⟨g, (clk.now).2, 0, []⟩ ⟨g, (clk.now).2, 0, []⟩
      true false rfl

theorem augVariants_nil_tokens (wn : String → List (List String)) (p : ℚ)
    (progress : Bool) (numTokens : ℕ) (startT : ℚ) (n : ℕ) (st : LoopSt) :
    (augVariants wn p progress numTokens startT [] n st).1 =
      List.replicate n "" := by
  induction n generalizing st with
  | zero => rfl
  | succ n ih => simp only [augVariants, augTokens, List.replicate_succ]; rw [ih]; rfl

/-- C10: a missing file degrades to the empty string, which splits into no
tokens, so the file pipeline returns `augmentation_factor` empty strings
for any non-`None` probability. -/
theorem augment_file_missing_returns_empties (fs : String → Option String)
    (wn : String → List (List String)) (file_path : String) (n : ℕ) (p : ℚ)
    (progress : Bool) (g : RNG) (clk : Clock) (hfs : fs file_path = none) :
    (augment_file_with_synonyms fs wn file_path n (some p) progress g
      clk).result = List.replicate n "" := by
  simp only [augment_file_with_synonyms, load_text_file, hfs,
    augment_text_with_synonyms]
  exact augVariants_nil_tokens wn p progress (pySplitWs "").length
    (clk.now).1 n ⟨g, (clk.now).2, 0, []⟩

/-- C10 witness: a concrete missing path with factor 3 and probability 1/2
yields three empty strings. -/
theorem augment_file_missing_returns_empties_witness :
    fsEmpty "missing.txt" = none ∧
      (augment_file_with_synonyms fsEmpty wnCat "missing.txt" 3
        (some (1 / 2)) true rng0 clk0).result = ["", "", ""] :=
  ⟨rfl, by
    rw [augment_file_missing_returns_empties fsEmpty wnCat "missing.txt" 3
      (1 / 2) true rng0 clk0 rfl]
    decide⟩

/-- C4: zero tokens give the empty string, a single token is returned
unchanged, and with more than one token exactly one token at a uniformly
drawn valid index is removed and the rest rejoined with single spaces
(every valid index is reachable by some random state). -/
theorem delete_random_word_spec (tk : String → List String) (text : String)
    (g : RNG) :
    (tk text = [] → (delete_random_word tk text g).1 = "") ∧
    (∀ w, tk text = [w] → (delete_random_word tk text g).1 = w) ∧
    (1 < (tk text).length →
      ∃ i, i < (tk text).length ∧
        (delete_random_word tk text g).1 =
          String.intercalate " " ((tk text).eraseIdx i)) ∧
    (∀ j, j < (tk text).length → 1 < (tk text).length → ∃ g' : RNG,
      (delete_random_word tk text g').1 =
        String.intercalate " " ((tk text).eraseIdx j)) := by
  refine ⟨?_, ?_, ?_, ?_⟩
  · intro h
    simp only [delete_random_word, h]
    rfl
  · intro w h
    simp only [delete_random_word, h]
    rfl
  · intro h
    have hlen : 0 < (tk text).length := by omega
    refine ⟨(g.randint 0 ((tk text).length - 1)).1, ?_, ?_⟩
    · simp only [RNG.randint, Nat.zero_add, Nat.sub_zero]
      have : (tk text).length - 1 + 1 = (tk text).length := by omega
      rw [this]
      exact Nat.mod_lt _ hlen
    · simp only [delete_random_word, if_pos h]
  · intro j hj hlen
    refine ⟨⟨fun _ => 0, fun _ => j, 0⟩, ?_⟩
    simp only [delete_random_word, if_pos hlen, RNG.randint, Nat.zero_add,
      Nat.sub_zero]
    have h1 : (tk text).length - 1 + 1 = (tk text).length := by omega
    rw [h1, Nat.mod_eq_of_lt hj]

/-- C4 witness: with the whitespace tokenizer, a single-token text comes
back unchanged, and on a three-token text some token is removed. -/
theorem delete_random_word_spec_witness :
    (pySplitWs "cat" = ["cat"] ∧
      (delete_random_word pySplitWs "cat" rng0).1 = "cat") ∧
    (1 < (pySplitWs "a b c").length ∧
      ∃ i, i < (pySplitWs "a b c").length ∧
        (delete_random_word pySplitWs "a b c" rng0).1 =
          String.intercalate " " ((pySplitWs "a b c").eraseIdx i)) :=
  ⟨⟨by decide, (delete_random_word_spec pySplitWs "cat" rng0).2.1 "cat"
      (by decide)⟩,
    ⟨by decide, (delete_random_word_spec pySplitWs "a b c" rng0).2.2.1
      (by decide)⟩⟩

theorem flatten_map_cons_nil (s : List Char) :
    (s.map (fun c => c :: ([] : List Char))).flatten = s := by
  induction s with
  | nil => rfl
  | cons c cs ih => simp only [List.map_cons, List.flatten_cons,
      List.singleton_append, ih]

theorem listStarts_eq_true_iff (pat : List Char) :
    ∀ s, listStarts pat s = true ↔ ∃ t, s = pat ++ t := by
  induction pat with
  | nil =>
    intro s
    exact ⟨fun _ => ⟨s, rfl⟩, fun _ => rfl⟩
  | cons d ds ih =>
    intro s
    cases s with
    | nil =>
      simp only [listStarts]
      constructor
      · intro h; cases h
      · rintro ⟨t, ht⟩; cases ht
    | cons c cs =>
      simp only [listStarts, Bool.and_eq_true, beq_iff_eq]
      constructor
      · rintro ⟨hdc, hrest⟩
        obtain ⟨t, ht⟩ := (ih cs).mp hrest
        exact ⟨t, by rw [List.cons_append, hdc, ht]⟩
      · rintro ⟨t, ht⟩
        rw [List.cons_append] at ht
        injection ht with h1 h2
        exact ⟨h1.symm, (ih cs).mpr ⟨t, h2⟩⟩

theorem pyReplaceL_self (old : List Char) : ∀ s, pyReplaceL old old s = s := by
  have H : ∀ (n : ℕ) (s : List Char), s.length ≤ n →
      pyReplaceL old old s = s := by
    intro n
    induction n with
    | zero =>
      intro s hs
      have hnil : s = [] := List.eq_nil_of_length_eq_zero (Nat.le_zero.mp hs)
      subst hnil
      rw [pyReplaceL.eq_def]
      by_cases ho : old = []
      · rw [dif_pos ho]
        subst ho
        rfl
      · rw [dif_neg ho]
    | succ n ih =>
      intro s hs
      rw [pyReplaceL.eq_def]
      by_cases ho : old = []
      · rw [dif_pos ho]
        subst ho
        simp only [List.nil_append]
        exact flatten_map_cons_nil s
      · rw [dif_neg ho]
        cases s with
        | nil => rfl
        | cons c rest =>
          show (if listStarts old (c :: rest) = true then
              old ++ pyReplaceL old old (List.drop old.length (c :: rest))
            else c :: pyReplaceL old old rest) = c :: rest
          by_cases hp : listStarts old (c :: rest) = true
          · rw [if_pos hp]
            obtain ⟨t, ht⟩ := (listStarts_eq_true_iff old (c :: rest)).mp hp
            have hdrop : (c :: rest).drop old.length = t := by
              rw [ht, List.drop_left]
            rw [hdrop]
            have hlen : t.length ≤ n := by
              have h1 : (c :: rest).length = old.length + t.length := by
                rw [ht, List.length_append]
              have h2 : 0 < old.length := List.length_pos.mpr ho
              simp only [List.length_cons] at h1 hs
              omega
            rw [ih t hlen, ← ht]
          · rw [if_neg hp]
            have hlen : rest.length ≤ n := by
              simp only [List.length_cons] at hs
              omega
            rw [ih rest hlen]
  intro s
  exact H s.length s (le_refl _)

theorem pyReplace_self (s w : String) : pyReplace s w w = s := by
  simp only [pyReplace, pyReplaceL_self]

/-- C5: `insert_synonym` draws one synonym for the word and substitutes it
for every literal occurrence of the word in the text via Python's
`str.replace`; with no synonyms the drawn "synonym" is the word itself and
the text comes back unchanged. -/
theorem insert_synonym_spec (wn : String → List (List String))
    (text word : String) (g : RNG) :
    ((wn word).flatten = [] → (insert_synonym wn text word g).1 = text) ∧
    ((wn word).flatten ≠ [] → ∃ syn ∈ (wn word).flatten,
      (insert_synonym wn text word g).1 = pyReplace text word syn) := by
  constructor
  · intro h
    simp only [insert_synonym, replace_word_with_synonym_of_empty wn word g h]
    exact pyReplace_self text word
  · intro h
    exact ⟨(replace_word_with_synonym wn word g).1,
      replace_word_with_synonym_mem wn word g h, rfl⟩

/-- C5 witness: "dog" has no synonyms under `wnCat`, so the text is
unchanged; "cat" has synonyms, so the text is a literal replacement. -/
theorem insert_synonym_spec_witness :
    ((wnCat "dog").flatten = [] ∧
      (insert_synonym wnCat "the dog barks" "dog" rng0).1 = "the dog barks") ∧
    ((wnCat "cat").flatten ≠ [] ∧
      ∃ syn ∈ (wnCat "cat").flatten,
        (insert_synonym wnCat "the cat sat" "cat" rng0).1 =
          pyReplace "the cat sat" "cat" syn) :=
  ⟨⟨by decide, (insert_synonym_spec wnCat "the dog barks" "dog" rng0).1
      (by decide)⟩,
    ⟨by decide, (insert_synonym_spec wnCat "the cat sat" "cat" rng0).2
      (by decide)⟩⟩

theorem replace_word_with_synonym_cases (wn : String → List (List String))
    (word : String) (g : RNG) :
    (replace_word_with_synonym wn word g).1 ∈ (wn word).flatten ∨
    ((wn word).flatten = [] ∧
      (replace_word_with_synonym wn word g).1 = word) := by
  by_cases h : (wn word).flatten = []
  · exact Or.inr ⟨h, replace_word_with_synonym_of_empty wn word g h⟩
  · exact Or.inl (replace_word_with_synonym_mem wn word g h)

theorem paraphraseTokens_spec (wn : String → List (List String)) :
    ∀ (tagged : List (String × String)) (g : RNG),
      (paraphraseTokens wn tagged g).1.length = tagged.length ∧
      ∀ i, i < tagged.length →
        (tagMatches (tagged.getD i ("", "")).2 = false →
          (paraphraseTokens wn tagged g).1.getD i "" =
            (tagged.getD i ("", "")).1) ∧
        (tagMatches (tagged.getD i ("", "")).2 = true →
          (paraphraseTokens wn tagged g).1.getD i "" ∈
            (wn (tagged.getD i ("", "")).1).flatten ∨
          ((wn (tagged.getD i ("", "")).1).flatten = [] ∧
            (paraphraseTokens wn tagged g).1.getD i "" =
              (tagged.getD i ("", "")).1)) := by
  intro tagged
  induction tagged with
  | nil =>
    intro g
    exact ⟨rfl, fun i hi => absurd hi (by simp only [List.length_nil]; omega)⟩
  | cons tt rest ih =>
    intro g
    obtain ⟨tok, tag⟩ := tt
    constructor
    · simp only [paraphraseTokens, List.length_cons]
      rw [(ih _).1]
    · intro i hi
      cases i with
      | zero =>
        simp only [paraphraseTokens, List.getD_cons_zero]
        constructor
        · intro hm
          simp only [hm, Bool.false_eq_true, if_false]
        · intro hm
          simp only [hm, if_true]
          exact replace_word_with_synonym_cases wn tok g
      | succ i =>
        simp only [paraphraseTokens, List.getD_cons_succ]
        exact (ih _).2 i (by simp only [List.length_cons] at hi; omega)

/-- C6: a tokenizer or tagger failure returns the text unchanged; on
success the result joins with single spaces a token list of the tagged
length in which every token whose tag starts with VB/NN/JJ is replaced by
a synonym (or kept when it has none) and every other token passes through
unchanged. -/
theorem paraphrase_spec (wn : String → List (List String))
    (tokenizeE : String → Except String (List String))
    (posTagE : List String → Except String (List (String × String)))
    (text : String) (g : RNG) :
    (∀ e, tokenizeE text = Except.error e →
      (paraphrase wn tokenizeE posTagE text g).1 = text) ∧
    (∀ tokens e, tokenizeE text = Except.ok tokens →
      posTagE tokens = Except.error e →
      (paraphrase wn tokenizeE posTagE text g).1 = text) ∧
    (∀ tokens tagged, tokenizeE text = Except.ok tokens →
      posTagE tokens = Except.ok tagged →
      ∃ outs : List String,
        (paraphrase wn tokenizeE posTagE text g).1 =
          String.intercalate " " outs ∧
        outs.length = tagged.length ∧
        ∀ i, i < tagged.length →
          (tagMatches (tagged.getD i ("", "")).2 = false →
            outs.getD i "" = (tagged.getD i ("", "")).1) ∧
          (tagMatches (tagged.getD i ("", "")).2 = true →
            outs.getD i "" ∈ (wn (tagged.getD i ("", "")).1).flatten ∨
            ((wn (tagged.getD i ("", "")).1).flatten = [] ∧
              outs.getD i "" = (tagged.getD i ("", "")).1))) := by
  refine ⟨?_, ?_, ?_⟩
  · intro e he
    simp only [paraphrase, he]
  · intro tokens e ht hp
    simp only [paraphrase, ht, hp]
  · intro tokens tagged ht hp
    refine ⟨(paraphraseTokens wn tagged g).1, ?_, (paraphraseTokens_spec wn tagged g).1,
      (paraphraseTokens_spec wn tagged g).2⟩
    simp only [paraphrase, ht, hp]

/-- C6 witness: a failing tokenizer makes `paraphrase` return the input
unchanged. -/
theorem paraphrase_spec_witness :
    tokenizeFail "hello world" = Except.error "tokenizer failure" ∧
      (paraphrase wnCat tokenizeFail posTagAllNN "hello world" rng0).1 =
        "hello world" :=
  ⟨rfl, (paraphrase_spec wnCat tokenizeFail posTagAllNN "hello world"
    rng0).1 "tokenizer failure" rfl⟩

/-- C7: when the requested size fits in the source image, `random_crop`
returns an image of exactly that size; the crop is the sub-image at some
top-left offset within the valid range, and every offset in the valid
range is produced by some random state. -/
theorem random_crop_spec (image : PImage) (size : ℕ × ℕ) (g : RNG)
    (h1 : size.1 ≤ image.width) (h2 : size.2 ≤ image.height) :
    ((random_crop image size g).1.width = size.1 ∧
      (random_crop image size g).1.height = size.2) ∧
    (∃ l u, l ≤ image.width - size.1 ∧ u ≤ image.height - size.2 ∧
      (random_crop image size g).1 =
        crop image (l, u, l + size.1, u + size.2)) ∧
    (∀ l u, l ≤ image.width - size.1 → u ≤ image.height - size.2 →
      ∃ g' : RNG, (random_crop image size g').1 =
        crop image (l, u, l + size.1, u + size.2)) := by
  refine ⟨⟨?_, ?_⟩, ?_, ?_⟩
  · simp only [random_crop, crop, Nat.add_sub_cancel_left]
  · simp only [random_crop, crop, Nat.add_sub_cancel_left]
  · refine ⟨(g.randint 0 (image.width - size.1)).1,
      ((g.randint 0 (image.width - size.1)).2.randint 0
        (image.height - size.2)).1, ?_, ?_, rfl⟩
    · simp only [RNG.randint, Nat.zero_add, Nat.sub_zero]
      exact Nat.le_of_lt_succ (Nat.mod_lt _ (Nat.succ_pos _))
    · simp only [RNG.randint, Nat.zero_add, Nat.sub_zero]
      exact Nat.le_of_lt_succ (Nat.mod_lt _ (Nat.succ_pos _))
  · intro l u hl hu
    refine ⟨⟨fun _ => 0, fun i => [l, u].getD i 0, 0⟩, ?_⟩
    have hml : l % (image.width - size.1 + 1) = l :=
      Nat.mod_eq_of_lt (by omega)
    have hmu : u % (image.height - size.2 + 1) = u :=
      Nat.mod_eq_of_lt (by omega)
    simp only [random_crop, RNG.randint, Nat.zero_add, Nat.sub_zero,
      List.getD_cons_zero, List.getD_cons_succ, hml, hmu]

/-- C7 witness: a 4 × 3 crop of a 10 × 8 image has size exactly 4 × 3. -/
theorem random_crop_spec_witness :
    ((4 : ℕ) ≤ img0.width ∧ (3 : ℕ) ≤ img0.height) ∧
      ((random_crop img0 (4, 3) rng0).1.width = 4 ∧
        (random_crop img0 (4, 3) rng0).1.height = 3) :=
  ⟨⟨by decide, by decide⟩,
    (random_crop_spec img0 (4, 3) rng0 (by decide) (by decide)).1⟩

/-- C9: `shuffle_words` evaluates `tqdm(total=len(text), ...)` before any
shuffling; the name `tqdm` is the module object (replication.py:28), so the
call raises `TypeError` for every input list, there is no handler, and no
shuffled result is ever returned. -/
theorem shuffle_words_raises (text : List String) (g : RNG) :
    shuffle_words text g =
      Except.error "TypeError: module object is not callable" := rfl
